import Mathlib

/-!
Verification of the party lifecycle and attendance core of the
party-media-gallery-server repository.

The service logic lives in `src/services/partyService.ts` (party CRUD,
join/leave/join-by-code, tag attachment, listing) together with
`src/middleware/errorHandler.ts` (the `AppError` → HTTP mapping).  The
embedding below models the Prisma-backed store as explicit lists of rows
and each service method as a pure function from a database state to an
`Except`-value: every `throw new AppError(...)` becomes an `.error`, and a
successful return carries the updated state.  In `partyService` every
`throw` happens before any write of the same call (the roster/counter
writes sit in a single trailing `prisma.$transaction`), so the error
results of the embedding faithfully leave the state unchanged.

The Prisma schema itself (column defaults) is not part of the sources
here; the two creation defaults the service relies on are modelled from
the spec and are marked as such below.

Machine integers: all ids, counters and timestamps are modelled as `Nat`;
none of the arithmetic in the service can overflow observably
(JavaScript numbers, monotone counters).
-/

namespace PartyGallery

/-- Party lifecycle status, from the Prisma enum used by
`updatePartySchema` / `listPartiesSchema` (`DRAFT | PLANNED | LIVE | ENDED
| CANCELLED`). -/
inductive PartyStatus where
  | DRAFT
  | PLANNED
  | LIVE
  | ENDED
  | CANCELLED
deriving DecidableEq, Repr

/-- Attendee role: the service writes the literal strings `host` and
`guest`. -/
inductive AttendeeRole where
  | host
  | guest
deriving DecidableEq, Repr

/-- A `PartyEvent` row.  Fields not touched by the party/attendance logic
(cover image, creation timestamp, venue relation) are omitted;
`startsAt`/`endsAt` are modelled as natural-number timestamps. -/
structure PartyRow where
  id : Nat
  hostId : Nat
  title : String
  description : Option String
  startsAt : Nat
  endsAt : Option Nat
  status : PartyStatus
  isPrivate : Bool
  accessCode : Option String
  maxAttendees : Option Nat
  attendeesCount : Nat
deriving DecidableEq, Repr

/-- A `PartyAttendee` row (`@@unique([partyId, userId])`, primary key
`id`). -/
structure AttendeeRow where
  id : Nat
  partyId : Nat
  userId : Nat
  role : AttendeeRole
  joinedAt : Nat
deriving DecidableEq, Repr

/-- A `Tag` row (unique `slug`, usage counter). -/
structure TagRow where
  id : Nat
  name : String
  slug : String
  usageCount : Nat
deriving DecidableEq, Repr

/-- A `PartyTag` association row (`@@unique([partyId, tagId])`). -/
structure PartyTagRow where
  partyId : Nat
  tagId : Nat
deriving DecidableEq, Repr

/-- A `ChatRoom` placeholder row (only the party reference matters
here). -/
structure ChatRoomRow where
  partyId : Nat
deriving DecidableEq, Repr

/-- The relational store visible to `partyService`.  `nextId` is the id
supply for newly inserted rows: every id already present is smaller. -/
structure DB where
  parties : List PartyRow
  attendees : List AttendeeRow
  tags : List TagRow
  partyTags : List PartyTagRow
  chatRooms : List ChatRoomRow
  nextId : Nat
deriving DecidableEq, Repr

/-- `AppError` from `src/middleware/errorHandler.ts`: a message plus the
HTTP status code it is sent with. -/
structure AppError where
  message : String
  statusCode : Nat
deriving DecidableEq, Repr

deriving instance DecidableEq for Except

/-- The `AppError` branch of `errorHandler`: the response uses the
error's own `statusCode` and `message`. -/
def handleAppError (e : AppError) : Nat × String :=
  (e.statusCode, e.message)

/-- JavaScript truthiness of an optional string value: `undefined` and
the empty string are falsy. -/
def optStrTruthy : Option String → Bool
  | none => false
  | some s => !(s == "")

/-- JavaScript truthiness of an optional number: `undefined` and `0` are
falsy. -/
def optNatTruthy : Option Nat → Bool
  | none => false
  | some n => !(n == 0)

/-- The character vocabulary of `generateAccessCode`. -/
def accessCodeChars : List Char :=
  "ABCDEFGHIJKLMNOPQRSTUVWXYZ0123456789".toList

/-- `generateAccessCode` draws six uniformly random indices into the
36-character vocabulary and concatenates the corresponding characters;
the random draws are passed in explicitly as `r`. -/
def generateAccessCode (r : Fin 6 → Fin 36) : String :=
  String.mk ((List.finRange 6).map
    (fun i => accessCodeChars.get (Fin.cast (by rfl) (r i))))

/-- `prisma.partyEvent.findUnique({ where: { id } })`. -/
def findParty (db : DB) (partyId : Nat) : Option PartyRow :=
  db.parties.find? (fun p => p.id == partyId)

/-- `prisma.partyAttendee.findUnique({ where: { partyId_userId } })`. -/
def findAttendee (db : DB) (partyId userId : Nat) : Option AttendeeRow :=
  db.attendees.find? (fun a => a.partyId == partyId && a.userId == userId)

/-- The private-party gate of `joinParty`:
`if (!accessCode || accessCode !== party.accessCode)`. -/
def accessCodeRejected (party : PartyRow) (accessCode : Option String) : Bool :=
  !(optStrTruthy accessCode) || !(accessCode == party.accessCode)

/-- The capacity check shared by `joinParty` and `joinByAccessCode`:
`if (party.maxAttendees && party.attendeesCount >= party.maxAttendees)`.
A zero `maxAttendees` is falsy in JavaScript, hence skipped. -/
def partyIsFull (party : PartyRow) : Bool :=
  match party.maxAttendees with
  | none => false
  | some m => !(m == 0) && decide (m ≤ party.attendeesCount)

/-- `attendeesCount: { increment: 1 }` applied to the row with the given
id. -/
def incAttendees (partyId : Nat) (p : PartyRow) : PartyRow :=
  if p.id == partyId then { p with attendeesCount := p.attendeesCount + 1 } else p

/-- `attendeesCount: { decrement: 1 }` applied to the row with the given
id. -/
def decAttendees (partyId : Nat) (p : PartyRow) : PartyRow :=
  if p.id == partyId then { p with attendeesCount := p.attendeesCount - 1 } else p

/-- `partyService.joinParty(partyId, userId, accessCode?)`: look the
party up, gate private parties on the exact access code, reject a full
party, reject a duplicate join, and otherwise insert the guest row and
increment the counter in one transaction. -/
def joinParty (db : DB) (partyId userId : Nat) (accessCode : Option String)
    (now : Nat) : Except AppError DB :=
  match findParty db partyId with
  | none => .error ⟨"Party not found", 404⟩
  | some party =>
    if party.isPrivate && accessCodeRejected party accessCode then
      .error ⟨"Invalid access code", 403⟩
    else if partyIsFull party then
      .error ⟨"Party is full", 400⟩
    else
      match findAttendee db partyId userId with
      | some _ => .error ⟨"Already attending this party", 400⟩
      | none =>
        .ok { db with
          attendees := db.attendees ++ [⟨db.nextId, partyId, userId, .guest, now⟩],
          parties := db.parties.map (incAttendees partyId),
          nextId := db.nextId + 1 }

/-- `partyService.leaveParty(partyId, userId)`: the host may not leave; a
non-attendee may not leave; otherwise delete the attendee row (by its
primary key) and decrement the counter in one transaction. -/
def leaveParty (db : DB) (partyId userId : Nat) : Except AppError DB :=
  match findParty db partyId with
  | none => .error ⟨"Party not found", 404⟩
  | some party =>
    if party.hostId == userId then
      .error ⟨"Host cannot leave the party", 400⟩
    else
      match findAttendee db partyId userId with
      | none => .error ⟨"Not attending this party", 400⟩
      | some attendee =>
        .ok { db with
          attendees := db.attendees.eraseP (fun a => a.id == attendee.id),
          parties := db.parties.map (decAttendees partyId) }

/-- The shape of `formatPartyResponse`.  The nested host summary is
represented by the host id; cover image, creation timestamp and venue are
omitted as above. -/
structure PartyResponse where
  id : Nat
  title : String
  description : Option String
  startsAt : Nat
  endsAt : Option Nat
  status : PartyStatus
  isPrivate : Bool
  accessCode : Option String
  maxAttendees : Option Nat
  attendeesCount : Nat
  hostId : Nat
  tags : List String
deriving DecidableEq, Repr

/-- `partyService.formatPartyResponse`: copies the row, hides the access
code of non-private parties, and lists the tag names passed along with
the row (`party.tags?.map((t) => t.tag.name) || []`). -/
def formatPartyResponse (party : PartyRow) (tagNames : List String) : PartyResponse :=
  { id := party.id
    title := party.title
    description := party.description
    startsAt := party.startsAt
    endsAt := party.endsAt
    status := party.status
    isPrivate := party.isPrivate
    accessCode := if party.isPrivate then party.accessCode else none
    maxAttendees := party.maxAttendees
    attendeesCount := party.attendeesCount
    hostId := party.hostId
    tags := tagNames }

/-- The tag names hydrated by the `tags: { include: { tag: true } }`
include clause for a party. -/
def tagNamesOf (db : DB) (partyId : Nat) : List String :=
  (db.partyTags.filter (fun pt => pt.partyId == partyId)).filterMap
    (fun pt => (db.tags.find? (fun t => t.id == pt.tagId)).map (fun t => t.name))

/-- Collapse every run of whitespace to a single hyphen, mirroring
`replace(/\s+/g, '-')`.  The flag records whether the previous character
was part of a whitespace run. -/
def collapseWsAux : Bool → List Char → List Char
  | _, [] => []
  | prevWs, c :: rest =>
    if c.isWhitespace then
      if prevWs then collapseWsAux true rest
      else '-' :: collapseWsAux true rest
    else c :: collapseWsAux false rest

/-- Slug derivation in `attachTags`:
`name.toLowerCase().replace(/\s+/g, '-')`. -/
def slugOf (name : String) : String :=
  String.mk (collapseWsAux false (name.toList.map Char.toLower))

/-- Modelled from the spec: the creation default of `Tag.usageCount` is
supplied by the Prisma schema, which is not among the sources here; the
spec fixes it — a tag is created with usage 1 (`create with usage=1`). -/
def tagUsageCountDefault : Nat := 1

/-- The `prisma.partyTag.upsert` of `attachTags`: create the association
only if absent, otherwise change nothing (`update: {}`). -/
def upsertPartyTag (db : DB) (partyId tagId : Nat) : DB :=
  match db.partyTags.find? (fun pt => pt.partyId == partyId && pt.tagId == tagId) with
  | some _ => db
  | none => { db with partyTags := db.partyTags ++ [⟨partyId, tagId⟩] }

/-- One iteration of the `attachTags` loop: upsert the tag by slug
(create it, or increment `usageCount` on the existing row), then upsert
the party↔tag association. -/
def upsertTagAndAssoc (db : DB) (partyId : Nat) (name : String) : DB :=
  match db.tags.find? (fun t => t.slug == slugOf name) with
  | some t =>
    upsertPartyTag
      { db with
        tags := db.tags.map (fun u =>
          if u.slug == slugOf name then { u with usageCount := u.usageCount + 1 }
          else u) }
      partyId t.id
  | none =>
    upsertPartyTag
      { db with
        tags := db.tags ++ [⟨db.nextId, name, slugOf name, tagUsageCountDefault⟩],
        nextId := db.nextId + 1 }
      partyId db.nextId

/-- `partyService.attachTags(partyId, tagNames)`: each name is processed
independently, in order. -/
def attachTags (db : DB) (partyId : Nat) : List String → DB
  | [] => db
  | name :: rest => attachTags (upsertTagAndAssoc db partyId name) partyId rest

/-- A primitive write against the store, used to talk about which writes
share a database transaction. -/
inductive DbOp where
  | insertParty (row : PartyRow)
  | insertAttendee (row : AttendeeRow)
  | insertChatRoom (partyId : Nat)
  | upsertTag (slug : String)
  | upsertPartyTag (partyId tagId : Nat)
deriving DecidableEq, Repr

/-- Transaction grouping of one `attachTags` iteration: the tag upsert
and the association upsert are two separate awaited Prisma calls, hence
two implicit transactions. -/
def upsertTagAndAssocTxns (db : DB) (partyId : Nat) (name : String) : List (List DbOp) :=
  match db.tags.find? (fun t => t.slug == slugOf name) with
  | some t => [[.upsertTag (slugOf name)], [.upsertPartyTag partyId t.id]]
  | none => [[.upsertTag (slugOf name)], [.upsertPartyTag partyId db.nextId]]

/-- Transaction grouping of the whole `attachTags` loop. -/
def attachTagsTxns (db : DB) (partyId : Nat) : List String → List (List DbOp)
  | [] => []
  | name :: rest =>
    upsertTagAndAssocTxns db partyId name ++
      attachTagsTxns (upsertTagAndAssoc db partyId name) partyId rest

/-- The input accepted by `createPartySchema`, restricted to the fields
the party/attendance logic touches (venue and cover image omitted). -/
structure CreatePartyInput where
  title : String
  description : Option String
  startsAt : Nat
  endsAt : Option Nat
  isPrivate : Bool
  maxAttendees : Option Nat
  tags : List String
deriving DecidableEq, Repr

/-- Modelled from the spec: the creation default of
`PartyEvent.attendeesCount` is supplied by the Prisma schema, which is
not among the sources here.  `createParty` itself never writes the
counter, and per the spec a freshly created party already counts its
host (`attendeesCount=1`), so the schema default is 1. -/
def attendeesCountDefault : Nat := 1

/-- The `PartyEvent` row inserted by `createParty`: status `PLANNED`, an
access code generated exactly for private parties, and the schema default
for `attendeesCount`. -/
def createPartyRow (db : DB) (hostId : Nat) (input : CreatePartyInput)
    (r : Fin 6 → Fin 36) : PartyRow :=
  { id := db.nextId
    hostId := hostId
    title := input.title
    description := input.description
    startsAt := input.startsAt
    endsAt := input.endsAt
    status := .PLANNED
    isPrivate := input.isPrivate
    accessCode := if input.isPrivate then some (generateAccessCode r) else none
    maxAttendees := input.maxAttendees
    attendeesCount := attendeesCountDefault }

/-- The host `PartyAttendee` row inserted by `createParty`. -/
def hostAttendeeRow (db : DB) (hostId now : Nat) : AttendeeRow :=
  ⟨db.nextId + 1, db.nextId, hostId, .host, now⟩

/-- `partyService.createParty(hostId, data)`: insert the party row,
insert the host attendee row, create the chat-room placeholder, attach
the supplied tags (only when non-empty), and return the response built
from the party row as read at creation time (so before the tag
attachment — the hydrated `tags` include is still empty). -/
def createParty (db : DB) (hostId : Nat) (input : CreatePartyInput)
    (r : Fin 6 → Fin 36) (now : Nat) : DB × PartyResponse :=
  let party := createPartyRow db hostId input r
  let hostRow := hostAttendeeRow db hostId now
  let db1 := { db with
    parties := db.parties ++ [party],
    attendees := db.attendees ++ [hostRow],
    chatRooms := db.chatRooms ++ [⟨party.id⟩],
    nextId := db.nextId + 2 }
  let db2 := if input.tags.isEmpty then db1 else attachTags db1 party.id input.tags
  (db2, formatPartyResponse party [])

/-- Transaction grouping of `createParty`: the party insert, the host
attendee insert and the chat-room insert are three separate awaited
Prisma calls — none shares a transaction with another — followed by the
`attachTags` calls. -/
def createPartyTxns (db : DB) (hostId : Nat) (input : CreatePartyInput)
    (r : Fin 6 → Fin 36) (now : Nat) : List (List DbOp) :=
  let party := createPartyRow db hostId input r
  let hostRow := hostAttendeeRow db hostId now
  let db1 := { db with
    parties := db.parties ++ [party],
    attendees := db.attendees ++ [hostRow],
    chatRooms := db.chatRooms ++ [⟨party.id⟩],
    nextId := db.nextId + 2 }
  [[.insertParty party], [.insertAttendee hostRow], [.insertChatRoom party.id]] ++
    (if input.tags.isEmpty then [] else attachTagsTxns db1 party.id input.tags)

/-- The patch accepted by `updatePartySchema`, restricted as above (venue
and cover image omitted). -/
structure UpdatePartyInput where
  title : Option String
  description : Option String
  startsAt : Option Nat
  endsAt : Option Nat
  isPrivate : Option Bool
  maxAttendees : Option Nat
  status : Option PartyStatus
deriving DecidableEq, Repr

/-- A patch with every field absent. -/
def emptyPatch : UpdatePartyInput :=
  ⟨none, none, none, none, none, none, none⟩

/-- The spread-based partial update of `updateParty`.  Fields guarded by
plain truthiness (`data.title && ...`, `data.maxAttendees && ...`) are
skipped when falsy; `description` and `isPrivate` are guarded by
`!== undefined`; `startsAt`/`endsAt` are non-empty datetime strings
whenever present, and `status` is an enum value, so presence suffices for
them. -/
def applyPatch (party : PartyRow) (patch : UpdatePartyInput) : PartyRow :=
  { party with
    title := match patch.title with
      | some t => if t == "" then party.title else t
      | none => party.title
    description := match patch.description with
      | some d => some d
      | none => party.description
    startsAt := patch.startsAt.getD party.startsAt
    endsAt := match patch.endsAt with
      | some e => some e
      | none => party.endsAt
    isPrivate := patch.isPrivate.getD party.isPrivate
    maxAttendees := if optNatTruthy patch.maxAttendees then patch.maxAttendees
      else party.maxAttendees
    status := patch.status.getD party.status }

/-- `partyService.updateParty(partyId, hostId, data)`: not-found and
host-only checks, then an unconditional partial update — the requested
`status` is applied with no transition validation. -/
def updateParty (db : DB) (partyId hostId : Nat) (patch : UpdatePartyInput) :
    Except AppError (DB × PartyResponse) :=
  match findParty db partyId with
  | none => .error ⟨"Party not found", 404⟩
  | some party =>
    if !(party.hostId == hostId) then
      .error ⟨"Only the host can update the party", 403⟩
    else
      let db1 := { db with
        parties := db.parties.map (fun q =>
          if q.id == partyId then applyPatch q patch else q) }
      .ok (db1, formatPartyResponse (applyPatch party patch) (tagNamesOf db partyId))

/-- `partyService.joinByAccessCode(userId, accessCode)`: look the party
up by its unique access code, reject a full party, and then — unlike
`joinParty` — treat an existing attendee as a silent success.  The
response is always built from the party row as read before any write. -/
def joinByAccessCode (db : DB) (userId : Nat) (accessCode : String) (now : Nat) :
    Except AppError (DB × PartyResponse) :=
  match db.parties.find? (fun p => p.accessCode == some accessCode) with
  | none => .error ⟨"Invalid access code", 404⟩
  | some party =>
    if partyIsFull party then
      .error ⟨"Party is full", 400⟩
    else
      match findAttendee db party.id userId with
      | some _ => .ok (db, formatPartyResponse party (tagNamesOf db party.id))
      | none =>
        let db1 := { db with
          attendees := db.attendees ++ [⟨db.nextId, party.id, userId, .guest, now⟩],
          parties := db.parties.map (incAttendees party.id),
          nextId := db.nextId + 1 }
        .ok (db1, formatPartyResponse party (tagNamesOf db party.id))

/-- The filters accepted by `listPartiesSchema`. -/
structure ListPartiesInput where
  page : Nat
  limit : Nat
  status : Option PartyStatus
  hostId : Option Nat
  search : Option String
  upcoming : Option Bool
deriving DecidableEq, Repr

/-- `if (upcoming)`: after `z.coerce.boolean`, only a present `true` is
truthy. -/
def upcomingActive (f : ListPartiesInput) : Bool :=
  f.upcoming.getD false

/-- Case-insensitive substring match, mirroring
`{ contains: search, mode: 'insensitive' }`. -/
def containsCI (hay needle : String) : Bool :=
  decide ((needle.toList.map Char.toLower) <:+: (hay.toList.map Char.toLower))

/-- The `status` key of the where-clause.  `upcoming` overwrites a
previously set `status` filter with `{ in: ['PLANNED', 'LIVE'] }`. -/
def statusFilterOk (f : ListPartiesInput) (p : PartyRow) : Bool :=
  if upcomingActive f then (p.status == .PLANNED || p.status == .LIVE)
  else
    match f.status with
    | some s => p.status == s
    | none => true

/-- The `hostId` key of the where-clause. -/
def hostFilterOk (f : ListPartiesInput) (p : PartyRow) : Bool :=
  match f.hostId with
  | some h => p.hostId == h
  | none => true

/-- The `OR` search key of the where-clause: case-insensitive substring
match against title and description; a null description matches
nothing. -/
def searchFilterOk (f : ListPartiesInput) (p : PartyRow) : Bool :=
  match f.search with
  | some s =>
    if s == "" then true
    else
      containsCI p.title s ||
        (match p.description with
          | some d => containsCI d s
          | none => false)
  | none => true

/-- The `startsAt: { gte: new Date() }` key added by `upcoming`. -/
def startsFilterOk (f : ListPartiesInput) (now : Nat) (p : PartyRow) : Bool :=
  if upcomingActive f then decide (now ≤ p.startsAt) else true

/-- The full where-clause of `listParties`, including the unconditional
`isPrivate: false`. -/
def matchesWhere (f : ListPartiesInput) (now : Nat) (p : PartyRow) : Bool :=
  statusFilterOk f p && hostFilterOk f p && searchFilterOk f p &&
    startsFilterOk f now p && (p.isPrivate == false)

instance : IsTotal PartyRow (fun a b => a.startsAt ≤ b.startsAt) :=
  ⟨fun a b => Nat.le_total a.startsAt b.startsAt⟩

instance : IsTrans PartyRow (fun a b => a.startsAt ≤ b.startsAt) :=
  ⟨fun _ _ _ => Nat.le_trans⟩

/-- `partyService.listParties(filters)`: filter, order by `startsAt`
ascending, paginate with `skip = (page - 1) * limit` and `take = limit`,
and count the filtered rows for the total. -/
def listParties (db : DB) (f : ListPartiesInput) (now : Nat) :
    List PartyResponse × Nat :=
  let filtered := db.parties.filter (matchesWhere f now)
  let sorted := List.insertionSort (fun a b => a.startsAt ≤ b.startsAt) filtered
  let paged := (sorted.drop ((f.page - 1) * f.limit)).take f.limit
  (paged.map (fun p => formatPartyResponse p (tagNamesOf db p.id)), filtered.length)

/-- Stated from the spec's words (§4.1), for comparison with the code:
the admissible status transitions — PLANNED → LIVE, LIVE → ENDED, and
CANCELLED reachable from any non-terminal state. -/
def specAllowedStatusTransition : PartyStatus → PartyStatus → Bool
  | .PLANNED, .LIVE => true
  | .LIVE, .ENDED => true
  | old, .CANCELLED => !(old == .ENDED || old == .CANCELLED)
  | _, _ => false

/-- Whether a primitive write belongs to the tag registry. -/
def opIsTagOp : DbOp → Bool
  | .upsertTag _ => true
  | .upsertPartyTag _ _ => true
  | _ => false

/-- Whether a primitive write is the Party insert. -/
def opIsInsertParty : DbOp → Bool
  | .insertParty _ => true
  | _ => false

/-- Whether a primitive write is an Attendee insert. -/
def opIsInsertAttendee : DbOp → Bool
  | .insertAttendee _ => true
  | _ => false

/-- The number of live `PartyAttendee` rows for a party. -/
def attRows (db : DB) (partyId : Nat) : Nat :=
  db.attendees.countP (fun a => a.partyId == partyId)

/-- The headcount invariant: every party's denormalized count equals its
live attendee-row count. -/
def countInv (db : DB) : Prop :=
  ∀ p ∈ db.parties, p.attendeesCount = attRows db p.id

/-- Store well-formedness: `nextId` is fresh, attendee rows reference
existing-id territory, and attendee primary keys are unique. -/
structure WF (db : DB) : Prop where
  partyIdLt : ∀ p ∈ db.parties, p.id < db.nextId
  attIdLt : ∀ a ∈ db.attendees, a.id < db.nextId
  attPartyIdLt : ∀ a ∈ db.attendees, a.partyId < db.nextId
  attIdNodup : (db.attendees.map (fun a => a.id)).Nodup

/-- A call against the attendance API, for stating properties of
arbitrary sequences of join/leave requests. -/
inductive AttendOp where
  | join (partyId userId : Nat) (code : Option String) (now : Nat)
  | leave (partyId userId : Nat)
deriving DecidableEq, Repr

/-- Dispatch one attendance call. -/
def applyOp (db : DB) : AttendOp → Except AppError DB
  | .join pid uid code now => joinParty db pid uid code now
  | .leave pid uid => leaveParty db pid uid

/-- Run a sequence of attendance calls, stopping at the first error. -/
def runOps (db : DB) : List AttendOp → Except AppError DB
  | [] => .ok db
  | op :: rest =>
    match applyOp db op with
    | .error e => .error e
    | .ok db1 => runOps db1 rest

theorem findParty_spec {db : DB} {pid : Nat} {party : PartyRow}
    (h : findParty db pid = some party) : party ∈ db.parties ∧ party.id = pid := by
  refine ⟨List.mem_of_find?_eq_some h, ?_⟩
  have := List.find?_some h
  simpa using this

theorem findAttendee_spec {db : DB} {pid uid : Nat} {att : AttendeeRow}
    (h : findAttendee db pid uid = some att) :
    att ∈ db.attendees ∧ att.partyId = pid ∧ att.userId = uid := by
  refine ⟨List.mem_of_find?_eq_some h, ?_, ?_⟩ <;>
    · have := List.find?_some h
      simp at this
      omega

/-- Successful `joinParty` calls have exactly one result shape: the guest
row is appended and the counter of the joined party is incremented. -/
theorem joinParty_ok_eq {db : DB} {pid uid : Nat} {code : Option String}
    {now : Nat} {db1 : DB} (h : joinParty db pid uid code now = .ok db1) :
    ∃ party, findParty db pid = some party ∧ findAttendee db pid uid = none ∧
      db1 = { db with
        attendees := db.attendees ++ [⟨db.nextId, pid, uid, .guest, now⟩],
        parties := db.parties.map (incAttendees pid),
        nextId := db.nextId + 1 } := by
  unfold joinParty at h
  split at h
  · exact absurd h (by simp)
  · rename_i party hfp
    split at h
    · exact absurd h (by simp)
    · split at h
      · exact absurd h (by simp)
      · split at h
        · exact absurd h (by simp)
        · rename_i hna
          exact ⟨party, hfp, hna, by injection h with h; exact h.symm⟩

/-- Successful `leaveParty` calls have exactly one result shape: the
found attendee row is deleted and the counter of the left party is
decremented. -/
theorem leaveParty_ok_eq {db : DB} {pid uid : Nat} {db1 : DB}
    (h : leaveParty db pid uid = .ok db1) :
    ∃ party att, findParty db pid = some party ∧
      findAttendee db pid uid = some att ∧
      db1 = { db with
        attendees := db.attendees.eraseP (fun a => a.id == att.id),
        parties := db.parties.map (decAttendees pid) } := by
  unfold leaveParty at h
  split at h
  · exact absurd h (by simp)
  · rename_i party hfp
    split at h
    · exact absurd h (by simp)
    · split at h
      · exact absurd h (by simp)
      · rename_i att hna
        exact ⟨party, att, hfp, hna, by injection h with h; exact h.symm⟩

theorem join_preserves_WF {db : DB} {pid uid : Nat} {code : Option String}
    {now : Nat} {db1 : DB} (hW : WF db)
    (h : joinParty db pid uid code now = .ok db1) : WF db1 := by
  obtain ⟨party, hfp, -, rfl⟩ := joinParty_ok_eq h
  obtain ⟨hmem, hid⟩ := findParty_spec hfp
  refine ⟨?_, ?_, ?_, ?_⟩
  · intro p hp
    simp only [List.mem_map] at hp
    obtain ⟨q, hq, rfl⟩ := hp
    have := hW.partyIdLt q hq
    unfold incAttendees
    split <;> simp <;> omega
  · intro a ha
    simp only [List.mem_append, List.mem_singleton] at ha
    rcases ha with ha | rfl
    · have := hW.attIdLt a ha
      simp
      omega
    · simp
  · intro a ha
    simp only [List.mem_append, List.mem_singleton] at ha
    rcases ha with ha | rfl
    · have := hW.attPartyIdLt a ha
      simp
      omega
    · have := hW.partyIdLt party hmem
      simp
      omega
  · simp only [List.map_append, List.map_cons, List.map_nil, List.nodup_append]
    refine ⟨hW.attIdNodup, by simp, ?_⟩
    intro x hx
    simp only [List.mem_map] at hx
    obtain ⟨a, ha, rfl⟩ := hx
    have := hW.attIdLt a ha
    simp
    omega

theorem join_preserves_countInv {db : DB} {pid uid : Nat} {code : Option String}
    {now : Nat} {db1 : DB} (hI : countInv db)
    (h : joinParty db pid uid code now = .ok db1) : countInv db1 := by
  obtain ⟨party, hfp, -, rfl⟩ := joinParty_ok_eq h
  intro p hp
  simp only [List.mem_map] at hp
  obtain ⟨q, hq, rfl⟩ := hp
  have hcnt := hI q hq
  unfold incAttendees attRows at *
  simp only [List.countP_append]
  by_cases hqp : q.id = pid
  · subst hqp
    simp [hcnt, List.countP_cons]
  · have : ¬ (q.id == pid) = true := by simp [hqp]
    simp only [this, if_false]
    have : ((pid == q.id) : Bool) = false := by simp; omega
    simp [List.countP_cons, this, hcnt]

theorem leave_preserves_WF {db : DB} {pid uid : Nat} {db1 : DB} (hW : WF db)
    (h : leaveParty db pid uid = .ok db1) : WF db1 := by
  obtain ⟨party, att, hfp, hfa, rfl⟩ := leaveParty_ok_eq h
  have hsub : (db.attendees.eraseP (fun a => a.id == att.id)).Sublist db.attendees :=
    List.eraseP_sublist _
  refine ⟨?_, ?_, ?_, ?_⟩
  · intro p hp
    simp only [List.mem_map] at hp
    obtain ⟨q, hq, rfl⟩ := hp
    have := hW.partyIdLt q hq
    unfold decAttendees
    split <;> simp <;> omega
  · intro a ha
    exact hW.attIdLt a (hsub.subset ha)
  · intro a ha
    exact hW.attPartyIdLt a (hsub.subset ha)
  · exact (hsub.map _).nodup hW.attIdNodup

theorem leave_preserves_countInv {db : DB} {pid uid : Nat} {db1 : DB}
    (hW : WF db) (hI : countInv db)
    (h : leaveParty db pid uid = .ok db1) : countInv db1 := by
  obtain ⟨party, att, hfp, hfa, rfl⟩ := leaveParty_ok_eq h
  obtain ⟨hattmem, hattpid, -⟩ := findAttendee_spec hfa
  obtain ⟨a, l₁, l₂, hl₁, hpa, hsplit, herase⟩ :=
    List.exists_of_eraseP (p := fun x => x.id == att.id) hattmem (by simp)
  have haeq : a = att := by
    have hamem : a ∈ db.attendees := by rw [hsplit]; simp
    have : a.id = att.id := by simpa using hpa
    exact List.inj_on_of_nodup_map hW.attIdNodup hamem hattmem this
  rw [haeq] at hsplit
  intro p hp
  simp only [List.mem_map] at hp
  obtain ⟨q, hq, rfl⟩ := hp
  have hcnt := hI q hq
  unfold attRows at hcnt
  rw [hsplit] at hcnt
  simp only [List.countP_append, List.countP_cons] at hcnt
  unfold attRows
  rw [herase]
  simp only [List.countP_append]
  by_cases hqp : q.id = pid
  · subst hqp
    have hmatch : ((att.partyId == q.id) : Bool) = true := by simp [hattpid]
    simp [hmatch] at hcnt
    simp [decAttendees]
    omega
  · have hbq : ((q.id == pid) : Bool) = false := by simp [hqp]
    have hmatch : ((att.partyId == q.id) : Bool) = false := by
      simp [hattpid]
      omega
    simp [hmatch] at hcnt
    simp [decAttendees, hbq]
    omega

theorem upsertPartyTag_fields (db : DB) (pid tid : Nat) :
    (upsertPartyTag db pid tid).parties = db.parties ∧
    (upsertPartyTag db pid tid).attendees = db.attendees ∧
    (upsertPartyTag db pid tid).nextId = db.nextId := by
  unfold upsertPartyTag
  split <;> simp

theorem upsertTagAndAssoc_fields (db : DB) (pid : Nat) (name : String) :
    (upsertTagAndAssoc db pid name).parties = db.parties ∧
    (upsertTagAndAssoc db pid name).attendees = db.attendees ∧
    db.nextId ≤ (upsertTagAndAssoc db pid name).nextId := by
  unfold upsertTagAndAssoc
  split
  · rename_i t ht
    have h := upsertPartyTag_fields
      { db with
        tags := db.tags.map (fun u =>
          if u.slug == slugOf name then { u with usageCount := u.usageCount + 1 }
          else u) }
      pid t.id
    exact ⟨h.1, h.2.1, le_of_eq h.2.2.symm⟩
  · have h := upsertPartyTag_fields
      { db with
        tags := db.tags ++ [⟨db.nextId, name, slugOf name, tagUsageCountDefault⟩],
        nextId := db.nextId + 1 }
      pid db.nextId
    refine ⟨h.1, h.2.1, ?_⟩
    rw [h.2.2]
    exact Nat.le_succ db.nextId

/-- `attachTags` only touches the tag tables and the id supply. -/
theorem attachTags_fields (pid : Nat) (names : List String) (db : DB) :
    (attachTags db pid names).parties = db.parties ∧
    (attachTags db pid names).attendees = db.attendees ∧
    db.nextId ≤ (attachTags db pid names).nextId := by
  induction names generalizing db with
  | nil => simp [attachTags]
  | cons name rest ih =>
    have h1 := upsertTagAndAssoc_fields db pid name
    have h2 := ih (upsertTagAndAssoc db pid name)
    unfold attachTags
    refine ⟨?_, ?_, ?_⟩
    · rw [h2.1, h1.1]
    · rw [h2.2.1, h1.2.1]
    · omega

/-- The state after `createParty`, up to the tag tables: the party row
and the host row are appended and the id supply advances past both. -/
theorem createParty_fst_fields (db : DB) (hostId : Nat) (input : CreatePartyInput)
    (r : Fin 6 → Fin 36) (now : Nat) :
    (createParty db hostId input r now).1.parties
      = db.parties ++ [createPartyRow db hostId input r] ∧
    (createParty db hostId input r now).1.attendees
      = db.attendees ++ [hostAttendeeRow db hostId now] ∧
    db.nextId + 2 ≤ (createParty db hostId input r now).1.nextId := by
  by_cases h : input.tags.isEmpty = true
  · simp [createParty, h]
  · have hf := attachTags_fields (createPartyRow db hostId input r).id input.tags
      { db with
        parties := db.parties ++ [createPartyRow db hostId input r],
        attendees := db.attendees ++ [hostAttendeeRow db hostId now],
        chatRooms := db.chatRooms ++ [⟨(createPartyRow db hostId input r).id⟩],
        nextId := db.nextId + 2 }
    simp only [createParty, h, if_false]
    exact ⟨hf.1, hf.2.1, hf.2.2⟩

theorem countInv_congr {db1 db2 : DB} (hp : db2.parties = db1.parties)
    (ha : db2.attendees = db1.attendees) (h : countInv db1) : countInv db2 := by
  intro p hp'
  rw [hp] at hp'
  unfold attRows
  rw [ha]
  exact h p hp'

theorem WF_mono {db1 db2 : DB} (hp : db2.parties = db1.parties)
    (ha : db2.attendees = db1.attendees) (hn : db1.nextId ≤ db2.nextId)
    (h : WF db1) : WF db2 := by
  refine ⟨?_, ?_, ?_, ?_⟩
  · intro p hmem
    rw [hp] at hmem
    have := h.partyIdLt p hmem
    omega
  · intro a hmem
    rw [ha] at hmem
    have := h.attIdLt a hmem
    omega
  · intro a hmem
    rw [ha] at hmem
    have := h.attPartyIdLt a hmem
    omega
  · rw [ha]
    exact h.attIdNodup

/-- `createParty` establishes well-formedness and the headcount
invariant: thanks to the schema default, the fresh party's counter (1)
already matches its single host attendee row. -/
theorem create_establishes (db : DB) (hostId : Nat) (input : CreatePartyInput)
    (r : Fin 6 → Fin 36) (now : Nat) (hW : WF db) (hI : countInv db) :
    WF (createParty db hostId input r now).1 ∧
      countInv (createParty db hostId input r now).1 := by
  obtain ⟨hp, ha, hn⟩ := createParty_fst_fields db hostId input r now
  have hpartyid : (createPartyRow db hostId input r).id = db.nextId := rfl
  have hhostid : (hostAttendeeRow db hostId now).id = db.nextId + 1 := rfl
  have hhostpid : (hostAttendeeRow db hostId now).partyId = db.nextId := rfl
  constructor
  · refine ⟨?_, ?_, ?_, ?_⟩
    · intro p hmem
      rw [hp] at hmem
      simp only [List.mem_append, List.mem_singleton] at hmem
      rcases hmem with hmem | rfl
      · have := hW.partyIdLt p hmem
        omega
      · rw [hpartyid]
        omega
    · intro a hmem
      rw [ha] at hmem
      simp only [List.mem_append, List.mem_singleton] at hmem
      rcases hmem with hmem | rfl
      · have := hW.attIdLt a hmem
        omega
      · rw [hhostid]
        omega
    · intro a hmem
      rw [ha] at hmem
      simp only [List.mem_append, List.mem_singleton] at hmem
      rcases hmem with hmem | rfl
      · have := hW.attPartyIdLt a hmem
        omega
      · rw [hhostpid]
        omega
    · rw [ha]
      simp only [List.map_append, List.map_cons, List.map_nil, List.nodup_append]
      refine ⟨hW.attIdNodup, by simp, ?_⟩
      intro x hx
      simp only [List.mem_map] at hx
      obtain ⟨a, hamem, rfl⟩ := hx
      have := hW.attIdLt a hamem
      simp only [List.mem_singleton, hhostid]
      omega
  · intro p hmem
    rw [hp] at hmem
    unfold attRows
    rw [ha]
    simp only [List.countP_append, List.mem_append, List.mem_singleton] at hmem ⊢
    rcases hmem with hmem | rfl
    · have hqlt := hW.partyIdLt p hmem
      have hone : List.countP (fun a => a.partyId == p.id)
          [hostAttendeeRow db hostId now] = 0 := by
        simp [List.countP_cons, hhostpid]
        omega
      rw [hone]
      have := hI p hmem
      unfold attRows at this
      omega
    · have hzero : List.countP
          (fun a => a.partyId == (createPartyRow db hostId input r).id)
          db.attendees = 0 := by
        rw [List.countP_eq_zero]
        intro a hamem
        have := hW.attPartyIdLt a hamem
        rw [hpartyid]
        simp
        omega
      have hone : List.countP
          (fun a => a.partyId == (createPartyRow db hostId input r).id)
          [hostAttendeeRow db hostId now] = 1 := by
        simp [List.countP_cons, hhostpid, hpartyid]
      rw [hzero, hone]
      rfl

theorem runOps_preserves (ops : List AttendOp) :
    ∀ db db2, WF db → countInv db → runOps db ops = .ok db2 →
      WF db2 ∧ countInv db2 := by
  induction ops with
  | nil =>
    intro db db2 hW hI h
    injection h with h
    exact h ▸ ⟨hW, hI⟩
  | cons op rest ih =>
    intro db db2 hW hI h
    unfold runOps at h
    cases hstep : applyOp db op with
    | error e => rw [hstep] at h; exact absurd h (by simp)
    | ok db1 =>
      rw [hstep] at h
      have hpres : WF db1 ∧ countInv db1 := by
        cases op with
        | join pid uid code now =>
          exact ⟨join_preserves_WF hW hstep, join_preserves_countInv hI hstep⟩
        | leave pid uid =>
          exact ⟨leave_preserves_WF hW hstep, leave_preserves_countInv hW hI hstep⟩
      exact ih db1 db2 hpres.1 hpres.2 h

/-- Claim C1: starting from a freshly created party (in a well-formed
store satisfying the headcount invariant), after any sequence of
successful joinParty/leaveParty calls every party's denormalized
`attendeesCount` equals the number of its Attendee rows — and this holds
already immediately after `createParty`, where the schema default counts
the host row. -/
theorem claim_C1_headcount_invariant
    (db : DB) (hostId : Nat) (input : CreatePartyInput) (r : Fin 6 → Fin 36)
    (now : Nat) (ops : List AttendOp) (db2 : DB)
    (hW : WF db) (hI : countInv db)
    (hrun : runOps (createParty db hostId input r now).1 ops = .ok db2) :
    countInv (createParty db hostId input r now).1 ∧ countInv db2 := by
  obtain ⟨hW1, hI1⟩ := create_establishes db hostId input r now hW hI
  exact ⟨hI1, (runOps_preserves ops _ db2 hW1 hI1 hrun).2⟩

/-- Concrete instantiation of claim C1: an empty store, one public party,
one guest joining and leaving again. -/
theorem claim_C1_witness :
    runOps (createParty ⟨[], [], [], [], [], 0⟩ 7
        ⟨"Birthday bash", none, 100, none, false, some 5, []⟩ (fun _ => 0) 50).1
        [.join 0 8 none 60, .leave 0 8]
      = .ok ⟨[⟨0, 7, "Birthday bash", none, 100, none, .PLANNED, false, none, some 5, 1⟩],
          [⟨1, 0, 7, .host, 50⟩], [], [], [⟨0⟩], 3⟩ ∧
    (countInv (createParty ⟨[], [], [], [], [], 0⟩ 7
        ⟨"Birthday bash", none, 100, none, false, some 5, []⟩ (fun _ => 0) 50).1 ∧
      countInv ⟨[⟨0, 7, "Birthday bash", none, 100, none, .PLANNED, false, none, some 5, 1⟩],
          [⟨1, 0, 7, .host, 50⟩], [], [], [⟨0⟩], 3⟩) := by
  constructor
  · decide
  · exact claim_C1_headcount_invariant ⟨[], [], [], [], [], 0⟩ 7
      ⟨"Birthday bash", none, 100, none, false, some 5, []⟩ (fun _ => 0) 50
      [.join 0 8 none 60, .leave 0 8]
      ⟨[⟨0, 7, "Birthday bash", none, 100, none, .PLANNED, false, none, some 5, 1⟩],
        [⟨1, 0, 7, .host, 50⟩], [], [], [⟨0⟩], 3⟩
      ⟨by decide, by decide, by decide, by decide⟩
      (by unfold countInv attRows; decide)
      (by decide)

/-- Claim C5: a not-yet-attending user joining a party whose
`maxAttendees` is set (a positive value, as `z.number().int().positive()`
guarantees) and whose counter has reached it fails with the
party-is-full error, and — the error being raised before any write — the
roster and counter are untouched. -/
theorem claim_C5_join_full_party
    (db : DB) (pid uid : Nat) (code : Option String) (now : Nat)
    (party : PartyRow) (m : Nat)
    (hp : findParty db pid = some party)
    (hgate : (party.isPrivate && accessCodeRejected party code) = false)
    (hmax : party.maxAttendees = some m) (hm : 0 < m)
    (hcnt : m ≤ party.attendeesCount)
    (hnot : findAttendee db pid uid = none) :
    joinParty db pid uid code now = .error ⟨"Party is full", 400⟩ := by
  have hfull : partyIsFull party = true := by
    unfold partyIsFull
    rw [hmax]
    simp
    omega
  unfold joinParty
  simp [hp, hgate, hfull]

/-- Concrete instantiation of claim C5: a public party with capacity 1
already holding its host. -/
theorem claim_C5_witness :
    joinParty ⟨[⟨0, 7, "t", none, 100, none, .PLANNED, false, none, some 1, 1⟩],
        [⟨1, 0, 7, .host, 50⟩], [], [], [⟨0⟩], 2⟩ 0 8 none 60
      = .error ⟨"Party is full", 400⟩ :=
  claim_C5_join_full_party
    ⟨[⟨0, 7, "t", none, 100, none, .PLANNED, false, none, some 1, 1⟩],
      [⟨1, 0, 7, .host, 50⟩], [], [], [⟨0⟩], 2⟩ 0 8 none 60
    ⟨0, 7, "t", none, 100, none, .PLANNED, false, none, some 1, 1⟩ 1
    (by decide) (by decide) (by decide) (by decide) (by decide) (by decide)

/-- Claim C6: for a private party whose stored access code is the
non-empty string `c` (generated codes are six characters long), the
access gate of `joinParty` passes exactly on the supplied code `some c`:
any other supplied value — a different string, the empty string, or no
code at all — fails with Forbidden 403 before any write. -/
theorem claim_C6_access_code_exact
    (db : DB) (pid uid now : Nat) (party : PartyRow) (c : String)
    (hp : findParty db pid = some party)
    (hpriv : party.isPrivate = true)
    (hcode : party.accessCode = some c)
    (hne : c ≠ "") :
    (∀ s : Option String, s ≠ some c →
        joinParty db pid uid s now = .error ⟨"Invalid access code", 403⟩) ∧
      joinParty db pid uid (some c) now ≠ .error ⟨"Invalid access code", 403⟩ := by
  constructor
  · intro s hs
    have hrej : accessCodeRejected party s = true := by
      unfold accessCodeRejected optStrTruthy
      cases s with
      | none => simp
      | some t =>
        by_cases ht : t = ""
        · simp [ht]
        · have hne2 : ¬ ((some t == party.accessCode) = true) := by
            rw [hcode]
            simp
            intro h
            exact hs (by rw [h])
          simp [ht, hne2]
    unfold joinParty
    simp [hp, hpriv, hrej]
  · have hrej : accessCodeRejected party (some c) = false := by
      unfold accessCodeRejected optStrTruthy
      rw [hcode]
      simp [hne]
    unfold joinParty
    simp only [hp, hpriv, hrej, Bool.and_false]
    split
    · rename_i hcontra
      exact absurd hcontra (by simp)
    · split
      · simp
      · split <;> simp

/-- Concrete instantiation of claim C6: wrong code rejected, stored code
accepted. -/
theorem claim_C6_witness :
    joinParty ⟨[⟨0, 7, "t", none, 100, none, .PLANNED, true, some "ABC123", none, 1⟩],
        [⟨1, 0, 7, .host, 50⟩], [], [], [⟨0⟩], 2⟩ 0 9 (some "ABC124") 60
      = .error ⟨"Invalid access code", 403⟩ ∧
    joinParty ⟨[⟨0, 7, "t", none, 100, none, .PLANNED, true, some "ABC123", none, 1⟩],
        [⟨1, 0, 7, .host, 50⟩], [], [], [⟨0⟩], 2⟩ 0 9 (some "ABC123") 60
      ≠ .error ⟨"Invalid access code", 403⟩ := by
  have h := claim_C6_access_code_exact
    ⟨[⟨0, 7, "t", none, 100, none, .PLANNED, true, some "ABC123", none, 1⟩],
      [⟨1, 0, 7, .host, 50⟩], [], [], [⟨0⟩], 2⟩ 0 9 60
    ⟨0, 7, "t", none, 100, none, .PLANNED, true, some "ABC123", none, 1⟩ "ABC123"
    (by decide) (by decide) (by decide) (by decide)
  exact ⟨h.1 (some "ABC124") (by decide), h.2⟩

/-- Counterexample to claim C3 as stated: a duplicate `joinParty` raises
`AppError('Already attending this party', 400)`, which `errorHandler`
sends with HTTP status 400 — not 409. -/
theorem claim_C3_counterexample :
    joinParty ⟨[⟨0, 7, "t", none, 100, none, .PLANNED, false, none, none, 2⟩],
        [⟨1, 0, 7, .host, 50⟩, ⟨2, 0, 8, .guest, 55⟩], [], [], [⟨0⟩], 3⟩ 0 8 none 60
      = .error ⟨"Already attending this party", 400⟩ ∧
    (handleAppError ⟨"Already attending this party", 400⟩).1 = 400 ∧
    ¬ (handleAppError ⟨"Already attending this party", 400⟩).1 = 409 := by
  decide

/-- Claim C3 as amended: when the party exists, the access gate and the
capacity check pass, and an Attendee row already exists for
(partyId, userId), `joinParty` fails with the already-attending error,
sent with HTTP status 400 (not 409); the error is raised before the
write transaction, so roster and counter are unchanged. -/
theorem claim_C3_duplicate_join
    (db : DB) (pid uid : Nat) (code : Option String) (now : Nat)
    (party : PartyRow) (att : AttendeeRow)
    (hp : findParty db pid = some party)
    (hgate : (party.isPrivate && accessCodeRejected party code) = false)
    (hfull : partyIsFull party = false)
    (hdup : findAttendee db pid uid = some att) :
    joinParty db pid uid code now = .error ⟨"Already attending this party", 400⟩ ∧
      handleAppError ⟨"Already attending this party", 400⟩
        = (400, "Already attending this party") := by
  constructor
  · unfold joinParty
    simp [hp, hgate, hfull, hdup]
  · rfl

/-- Concrete instantiation of amended claim C3. -/
theorem claim_C3_witness :
    joinParty ⟨[⟨0, 7, "t", none, 100, none, .PLANNED, false, none, none, 2⟩],
        [⟨1, 0, 7, .host, 50⟩, ⟨2, 0, 8, .guest, 55⟩], [], [], [⟨0⟩], 3⟩ 0 8 none 61
      = .error ⟨"Already attending this party", 400⟩ ∧
      handleAppError ⟨"Already attending this party", 400⟩
        = (400, "Already attending this party") :=
  claim_C3_duplicate_join
    ⟨[⟨0, 7, "t", none, 100, none, .PLANNED, false, none, none, 2⟩],
      [⟨1, 0, 7, .host, 50⟩, ⟨2, 0, 8, .guest, 55⟩], [], [], [⟨0⟩], 3⟩ 0 8 none 61
    ⟨0, 7, "t", none, 100, none, .PLANNED, false, none, none, 2⟩
    ⟨2, 0, 8, .guest, 55⟩
    (by decide) (by decide) (by decide) (by decide)

/-- Counterexample to claim C4 as stated: a user who is already
attending a party that is at capacity does not get the idempotent
success when joining by access code — the capacity check runs first, so
the call fails with the party-is-full error. -/
theorem claim_C4_counterexample :
    (findAttendee ⟨[⟨0, 7, "t", none, 100, none, .PLANNED, true, some "QQQQQQ", some 1, 1⟩],
        [⟨1, 0, 9, .guest, 50⟩], [], [], [⟨0⟩], 2⟩ 0 9).isSome = true ∧
    joinByAccessCode ⟨[⟨0, 7, "t", none, 100, none, .PLANNED, true, some "QQQQQQ", some 1, 1⟩],
        [⟨1, 0, 9, .guest, 50⟩], [], [], [⟨0⟩], 2⟩ 9 "QQQQQQ" 60
      = .error ⟨"Party is full", 400⟩ := by
  decide

/-- Claim C4 as amended: for a user who is already attending the party
found by the access code, `joinByAccessCode` succeeds idempotently —
returning the party with no mutation at all — exactly when the capacity
check passes; when the party is at or over capacity the call instead
fails with the party-is-full error, even for that existing attendee. -/
theorem claim_C4_joinByCode_duplicate
    (db : DB) (uid now : Nat) (code : String) (party : PartyRow)
    (hp : db.parties.find? (fun p => p.accessCode == some code) = some party)
    (hdup : (findAttendee db party.id uid).isSome = true) :
    (partyIsFull party = false →
        joinByAccessCode db uid code now
          = .ok (db, formatPartyResponse party (tagNamesOf db party.id))) ∧
    (partyIsFull party = true →
        joinByAccessCode db uid code now = .error ⟨"Party is full", 400⟩) := by
  constructor
  · intro hfull
    obtain ⟨att, hatt⟩ := Option.isSome_iff_exists.mp hdup
    unfold joinByAccessCode
    simp [hp, hfull, hatt]
  · intro hfull
    unfold joinByAccessCode
    simp [hp, hfull]

/-- Concrete instantiation of amended claim C4 (below capacity: silent
idempotent success without mutation). -/
theorem claim_C4_witness :
    joinByAccessCode ⟨[⟨0, 7, "t", none, 100, none, .PLANNED, true, some "QQQQQQ", some 5, 2⟩],
        [⟨1, 0, 9, .guest, 50⟩], [], [], [⟨0⟩], 2⟩ 9 "QQQQQQ" 60
      = .ok (⟨[⟨0, 7, "t", none, 100, none, .PLANNED, true, some "QQQQQQ", some 5, 2⟩],
          [⟨1, 0, 9, .guest, 50⟩], [], [], [⟨0⟩], 2⟩,
        formatPartyResponse ⟨0, 7, "t", none, 100, none, .PLANNED, true, some "QQQQQQ", some 5, 2⟩
          (tagNamesOf ⟨[⟨0, 7, "t", none, 100, none, .PLANNED, true, some "QQQQQQ", some 5, 2⟩],
            [⟨1, 0, 9, .guest, 50⟩], [], [], [⟨0⟩], 2⟩ 0)) :=
  (claim_C4_joinByCode_duplicate
    ⟨[⟨0, 7, "t", none, 100, none, .PLANNED, true, some "QQQQQQ", some 5, 2⟩],
      [⟨1, 0, 9, .guest, 50⟩], [], [], [⟨0⟩], 2⟩ 9 60 "QQQQQQ"
    ⟨0, 7, "t", none, 100, none, .PLANNED, true, some "QQQQQQ", some 5, 2⟩
    (by decide) (by decide)).1 (by decide)

/-- Claim C10: a first-time join through `joinByAccessCode` returns the
response built from the party row as read before the attendee insert and
counter increment — the returned `attendeesCount` is the pre-join value,
excluding the caller — while the stored counter is incremented. -/
theorem claim_C10_stale_response
    (db : DB) (uid now : Nat) (code : String) (party : PartyRow)
    (hp : db.parties.find? (fun p => p.accessCode == some code) = some party)
    (hfull : partyIsFull party = false)
    (hnew : findAttendee db party.id uid = none) :
    joinByAccessCode db uid code now
      = .ok ({ db with
          attendees := db.attendees ++ [⟨db.nextId, party.id, uid, .guest, now⟩],
          parties := db.parties.map (incAttendees party.id),
          nextId := db.nextId + 1 },
        formatPartyResponse party (tagNamesOf db party.id)) ∧
    (formatPartyResponse party (tagNamesOf db party.id)).attendeesCount
      = party.attendeesCount ∧
    ∀ q ∈ db.parties, q.id = party.id →
      (incAttendees party.id q).attendeesCount = q.attendeesCount + 1 := by
  refine ⟨?_, rfl, ?_⟩
  · unfold joinByAccessCode
    simp [hp, hfull, hnew]
  · intro q hq hid
    unfold incAttendees
    simp [hid]

/-- Concrete instantiation of claim C10: the caller's own join is not
reflected in the returned count (still 1), while the stored row is
incremented to 2. -/
theorem claim_C10_witness :
    joinByAccessCode ⟨[⟨0, 7, "t", none, 100, none, .PLANNED, true, some "ZZZZZZ", none, 1⟩],
        [⟨1, 0, 7, .host, 50⟩], [], [], [⟨0⟩], 2⟩ 9 "ZZZZZZ" 60
      = .ok (⟨[⟨0, 7, "t", none, 100, none, .PLANNED, true, some "ZZZZZZ", none, 2⟩],
          [⟨1, 0, 7, .host, 50⟩, ⟨2, 0, 9, .guest, 60⟩], [], [], [⟨0⟩], 3⟩,
        ⟨0, "t", none, 100, none, .PLANNED, true, some "ZZZZZZ", none, 1, 7, []⟩) := by
  have h := claim_C10_stale_response
    ⟨[⟨0, 7, "t", none, 100, none, .PLANNED, true, some "ZZZZZZ", none, 1⟩],
      [⟨1, 0, 7, .host, 50⟩], [], [], [⟨0⟩], 2⟩ 9 60 "ZZZZZZ"
    ⟨0, 7, "t", none, 100, none, .PLANNED, true, some "ZZZZZZ", none, 1⟩
    (by decide) (by decide) (by decide)
  rw [h.1]
  decide

/-- Counterexample to claim C7 as stated: attaching the same tag name
twice to the same party yields exactly one association, but the usage
counter ends at 2, not 1 — the second attach increments it again, so it
is not a no-op on the counter. -/
theorem claim_C7_counterexample :
    (attachTags (attachTags ⟨[⟨0, 7, "t", none, 100, none, .PLANNED, false, none, none, 1⟩],
        [⟨1, 0, 7, .host, 50⟩], [], [], [⟨0⟩], 2⟩ 0 ["fiesta"]) 0 ["fiesta"]).tags
      = [⟨2, "fiesta", "fiesta", 2⟩] ∧
    (attachTags (attachTags ⟨[⟨0, 7, "t", none, 100, none, .PLANNED, false, none, none, 1⟩],
        [⟨1, 0, 7, .host, 50⟩], [], [], [⟨0⟩], 2⟩ 0 ["fiesta"]) 0 ["fiesta"]).partyTags
      = [⟨0, 2⟩] ∧
    (attachTags ⟨[⟨0, 7, "t", none, 100, none, .PLANNED, false, none, none, 1⟩],
        [⟨1, 0, 7, .host, 50⟩], [], [], [⟨0⟩], 2⟩ 0 ["fiesta"]).tags
      = [⟨2, "fiesta", "fiesta", 1⟩] := by
  decide

/-- Claim C7 as amended: re-attaching a tag whose slug already exists
and whose association with the party already exists is a no-op on the
association table, but it still increments the tag's usage counter — the
counter part of the claimed idempotence does not hold. -/
theorem claim_C7_reattach_increments
    (db : DB) (pid : Nat) (name : String) (t : TagRow)
    (ht : db.tags.find? (fun u => u.slug == slugOf name) = some t)
    (ha : (db.partyTags.find?
        (fun pt => pt.partyId == pid && pt.tagId == t.id)).isSome = true) :
    (attachTags db pid [name]).partyTags = db.partyTags ∧
    (attachTags db pid [name]).tags
      = db.tags.map (fun u =>
          if u.slug == slugOf name then { u with usageCount := u.usageCount + 1 }
          else u) := by
  obtain ⟨pt, hpt⟩ := Option.isSome_iff_exists.mp ha
  have hone : attachTags db pid [name] = upsertTagAndAssoc db pid name := rfl
  rw [hone]
  unfold upsertTagAndAssoc
  simp only [ht]
  unfold upsertPartyTag
  simp only [hpt]
  exact ⟨trivial, trivial⟩

/-- Concrete instantiation of amended claim C7: the second attach leaves
the association list unchanged and maps the counter up by one. -/
theorem claim_C7_witness :
    (attachTags (attachTags ⟨[⟨0, 7, "t", none, 100, none, .PLANNED, false, none, none, 1⟩],
        [⟨1, 0, 7, .host, 50⟩], [], [], [⟨0⟩], 2⟩ 0 ["fiesta"]) 0 ["fiesta"]).partyTags
      = (attachTags ⟨[⟨0, 7, "t", none, 100, none, .PLANNED, false, none, none, 1⟩],
          [⟨1, 0, 7, .host, 50⟩], [], [], [⟨0⟩], 2⟩ 0 ["fiesta"]).partyTags ∧
    (attachTags (attachTags ⟨[⟨0, 7, "t", none, 100, none, .PLANNED, false, none, none, 1⟩],
        [⟨1, 0, 7, .host, 50⟩], [], [], [⟨0⟩], 2⟩ 0 ["fiesta"]) 0 ["fiesta"]).tags
      = (attachTags ⟨[⟨0, 7, "t", none, 100, none, .PLANNED, false, none, none, 1⟩],
          [⟨1, 0, 7, .host, 50⟩], [], [], [⟨0⟩], 2⟩ 0 ["fiesta"]).tags.map (fun u =>
            if u.slug == slugOf "fiesta" then { u with usageCount := u.usageCount + 1 }
            else u) :=
  claim_C7_reattach_increments
    (attachTags ⟨[⟨0, 7, "t", none, 100, none, .PLANNED, false, none, none, 1⟩],
      [⟨1, 0, 7, .host, 50⟩], [], [], [⟨0⟩], 2⟩ 0 ["fiesta"]) 0 "fiesta"
    ⟨2, "fiesta", "fiesta", 1⟩ (by decide) (by decide)

/-- Counterexample to claim C8 as stated: `updateParty` happily moves a
party from the terminal status ENDED back to PLANNED — a transition the
claim forbids. -/
theorem claim_C8_counterexample :
    findParty ⟨[⟨0, 7, "t", none, 100, none, .ENDED, false, none, none, 1⟩],
        [⟨1, 0, 7, .host, 50⟩], [], [], [⟨0⟩], 2⟩ 0
      = some ⟨0, 7, "t", none, 100, none, .ENDED, false, none, none, 1⟩ ∧
    (updateParty ⟨[⟨0, 7, "t", none, 100, none, .ENDED, false, none, none, 1⟩],
        [⟨1, 0, 7, .host, 50⟩], [], [], [⟨0⟩], 2⟩ 0 7
        { emptyPatch with status := some .PLANNED }).toOption.map
          (fun x => x.2.status)
      = some .PLANNED ∧
    specAllowedStatusTransition .ENDED .PLANNED = false := by
  decide

/-- Claim C8 as amended: `updateParty` enforces no status state machine
at all — whenever the party exists and the caller is its host, any
requested status (any of the five schema values) is applied regardless
of the current status, including transitions out of ENDED and
CANCELLED. -/
theorem claim_C8_no_transition_validation
    (db : DB) (pid hostId : Nat) (patch : UpdatePartyInput)
    (party : PartyRow) (s : PartyStatus)
    (hp : findParty db pid = some party)
    (hh : party.hostId = hostId)
    (hs : patch.status = some s) :
    updateParty db pid hostId patch
      = .ok ({ db with
          parties := db.parties.map (fun q =>
            if q.id == pid then applyPatch q patch else q) },
        formatPartyResponse (applyPatch party patch) (tagNamesOf db pid)) ∧
    (applyPatch party patch).status = s := by
  constructor
  · unfold updateParty
    simp [hp, hh]
  · unfold applyPatch
    simp [hs]

/-- Concrete instantiation of amended claim C8: the host sets an ENDED
party back to PLANNED and the update succeeds. -/
theorem claim_C8_witness :
    updateParty ⟨[⟨0, 7, "t", none, 100, none, .ENDED, false, none, none, 1⟩],
        [⟨1, 0, 7, .host, 50⟩], [], [], [⟨0⟩], 2⟩ 0 7
        { emptyPatch with status := some .PLANNED }
      = .ok ({ (⟨[⟨0, 7, "t", none, 100, none, .ENDED, false, none, none, 1⟩],
            [⟨1, 0, 7, .host, 50⟩], [], [], [⟨0⟩], 2⟩ : DB) with
          parties := [⟨0, 7, "t", none, 100, none, .ENDED, false, none, none, 1⟩].map
            (fun q => if q.id == 0 then applyPatch q { emptyPatch with status := some .PLANNED }
              else q) },
        formatPartyResponse
          (applyPatch ⟨0, 7, "t", none, 100, none, .ENDED, false, none, none, 1⟩
            { emptyPatch with status := some .PLANNED })
          (tagNamesOf ⟨[⟨0, 7, "t", none, 100, none, .ENDED, false, none, none, 1⟩],
            [⟨1, 0, 7, .host, 50⟩], [], [], [⟨0⟩], 2⟩ 0)) ∧
    (applyPatch ⟨0, 7, "t", none, 100, none, .ENDED, false, none, none, 1⟩
        { emptyPatch with status := some .PLANNED }).status = .PLANNED :=
  claim_C8_no_transition_validation
    ⟨[⟨0, 7, "t", none, 100, none, .ENDED, false, none, none, 1⟩],
      [⟨1, 0, 7, .host, 50⟩], [], [], [⟨0⟩], 2⟩ 0 7
    { emptyPatch with status := some .PLANNED }
    ⟨0, 7, "t", none, 100, none, .ENDED, false, none, none, 1⟩ .PLANNED
    (by decide) (by decide) (by decide)

theorem generateAccessCode_length (r : Fin 6 → Fin 36) :
    (generateAccessCode r).length = 6 := by
  simp [generateAccessCode, String.length]

theorem accessCodeChars_alnum : ∀ c ∈ accessCodeChars, c.isAlphanum = true := by
  decide

theorem generateAccessCode_alnum (r : Fin 6 → Fin 36) :
    ∀ ch ∈ (generateAccessCode r).toList, ch.isAlphanum = true := by
  intro ch hch
  have htl : (generateAccessCode r).toList
      = (List.finRange 6).map
          (fun i => accessCodeChars.get (Fin.cast (by rfl) (r i))) := rfl
  rw [htl] at hch
  simp only [List.mem_map] at hch
  obtain ⟨i, -, rfl⟩ := hch
  exact accessCodeChars_alnum _ (List.get_mem accessCodeChars _ _)

theorem upsertPartyTag_chatRooms (db : DB) (pid tid : Nat) :
    (upsertPartyTag db pid tid).chatRooms = db.chatRooms := by
  unfold upsertPartyTag
  split <;> rfl

theorem upsertTagAndAssoc_chatRooms (db : DB) (pid : Nat) (name : String) :
    (upsertTagAndAssoc db pid name).chatRooms = db.chatRooms := by
  unfold upsertTagAndAssoc
  split <;> rw [upsertPartyTag_chatRooms]

theorem attachTags_chatRooms (pid : Nat) (names : List String) :
    ∀ db, (attachTags db pid names).chatRooms = db.chatRooms := by
  induction names with
  | nil => intro db; rfl
  | cons n rest ih =>
    intro db
    unfold attachTags
    rw [ih, upsertTagAndAssoc_chatRooms]

theorem createParty_chatRooms (db : DB) (hostId : Nat) (input : CreatePartyInput)
    (r : Fin 6 → Fin 36) (now : Nat) :
    (createParty db hostId input r now).1.chatRooms
      = db.chatRooms ++ [⟨db.nextId⟩] := by
  by_cases h : input.tags.isEmpty = true
  · simp [createParty, h, createPartyRow]
  · simp [createParty, h]
    rw [attachTags_chatRooms]
    simp [createPartyRow]

theorem upsertTagAndAssocTxns_ops (db : DB) (pid : Nat) (name : String) :
    ∀ txn ∈ upsertTagAndAssocTxns db pid name, ∀ op ∈ txn, opIsTagOp op = true := by
  unfold upsertTagAndAssocTxns
  split
  all_goals
    intro txn htxn op hop
    simp only [List.mem_cons, List.not_mem_nil, or_false] at htxn
    rcases htxn with rfl | rfl <;>
      · simp only [List.mem_cons, List.not_mem_nil, or_false] at hop
        subst hop
        rfl

theorem attachTagsTxns_ops (pid : Nat) (names : List String) :
    ∀ db txn, txn ∈ attachTagsTxns db pid names →
      ∀ op ∈ txn, opIsTagOp op = true := by
  induction names with
  | nil =>
    intro db txn htxn
    simp [attachTagsTxns] at htxn
  | cons n rest ih =>
    intro db txn htxn op hop
    unfold attachTagsTxns at htxn
    rw [List.mem_append] at htxn
    rcases htxn with h | h
    · exact upsertTagAndAssocTxns_ops db pid n txn h op hop
    · exact ih _ txn h op hop

/-- Counterexample to claim C2 as stated: at a concrete private input,
no transaction of `createParty` contains both the party insert and the
host attendee insert — the inserts are separate sequential Prisma calls,
not one atomic unit. -/
theorem claim_C2_counterexample :
    ¬ ∃ txn ∈ createPartyTxns ⟨[], [], [], [], [], 0⟩ 7
        ⟨"Secret bash", none, 100, none, true, some 1, []⟩ (fun _ => 0) 50,
      txn.any opIsInsertParty = true ∧ txn.any opIsInsertAttendee = true := by
  decide

/-- Claim C2 as amended: `createParty` with `isPrivate=true` returns a
party with status PLANNED, a 6-character alphanumeric access code and
`attendeesCount` 1 (the schema default), and inserts exactly one
host-role Attendee row and a chat-room placeholder together with the
Party row — but as separate sequential operations: no database
transaction contains the party insert together with the attendee
insert. -/
theorem claim_C2_create_private
    (db : DB) (hostId : Nat) (input : CreatePartyInput) (r : Fin 6 → Fin 36)
    (now : Nat) (hW : WF db) (hpriv : input.isPrivate = true) :
    (createParty db hostId input r now).2.status = .PLANNED ∧
    (createParty db hostId input r now).2.attendeesCount = 1 ∧
    (∃ c, (createParty db hostId input r now).2.accessCode = some c ∧
      c.length = 6 ∧ ∀ ch ∈ c.toList, ch.isAlphanum = true) ∧
    (createParty db hostId input r now).1.attendees.countP
        (fun a => a.partyId == db.nextId && a.role == AttendeeRole.host) = 1 ∧
    (createParty db hostId input r now).1.chatRooms
      = db.chatRooms ++ [⟨db.nextId⟩] ∧
    ∀ txn ∈ createPartyTxns db hostId input r now,
      ¬ (txn.any opIsInsertParty = true ∧ txn.any opIsInsertAttendee = true) := by
  refine ⟨rfl, rfl, ?_, ?_, createParty_chatRooms db hostId input r now, ?_⟩
  · refine ⟨generateAccessCode r, ?_, generateAccessCode_length r,
      generateAccessCode_alnum r⟩
    simp [createParty, formatPartyResponse, createPartyRow, hpriv]
  · rw [(createParty_fst_fields db hostId input r now).2.1]
    rw [List.countP_append]
    have hzero : db.attendees.countP
        (fun a => a.partyId == db.nextId && a.role == AttendeeRole.host) = 0 := by
      rw [List.countP_eq_zero]
      intro a hamem
      have := hW.attPartyIdLt a hamem
      simp
      intro hpid
      omega
    have hone : List.countP
        (fun a => a.partyId == db.nextId && a.role == AttendeeRole.host)
        [hostAttendeeRow db hostId now] = 1 := by
      simp [List.countP_cons, hostAttendeeRow]
    rw [hzero, hone]
  · intro txn htxn
    simp only [createPartyTxns, List.mem_append, List.mem_cons,
      List.not_mem_nil, or_false] at htxn
    rcases htxn with (rfl | rfl | rfl) | htxn
    · rintro ⟨-, ha⟩
      simp [opIsInsertAttendee] at ha
    · rintro ⟨hp, -⟩
      simp [opIsInsertParty] at hp
    · rintro ⟨hp, -⟩
      simp [opIsInsertParty] at hp
    · by_cases he : input.tags.isEmpty = true
      · rw [he] at htxn
        simp at htxn
      · simp only [he, if_false] at htxn
        rintro ⟨hp, -⟩
        rw [List.any_eq_true] at hp
        obtain ⟨op, hop, hpp⟩ := hp
        have htag := attachTagsTxns_ops _ input.tags _ txn htxn op hop
        cases op <;> simp [opIsTagOp] at htag <;> simp [opIsInsertParty] at hpp

/-- Concrete instantiation of amended claim C2: an empty store and a
private party with capacity 1. -/
theorem claim_C2_witness :
    (createParty ⟨[], [], [], [], [], 0⟩ 7
        ⟨"Secret bash", none, 100, none, true, some 1, []⟩ (fun _ => 0) 50).2.status
      = .PLANNED ∧
    (createParty ⟨[], [], [], [], [], 0⟩ 7
        ⟨"Secret bash", none, 100, none, true, some 1, []⟩ (fun _ => 0) 50).2.attendeesCount
      = 1 ∧
    (∃ c, (createParty ⟨[], [], [], [], [], 0⟩ 7
        ⟨"Secret bash", none, 100, none, true, some 1, []⟩ (fun _ => 0) 50).2.accessCode
        = some c ∧ c.length = 6 ∧ ∀ ch ∈ c.toList, ch.isAlphanum = true) ∧
    (createParty ⟨[], [], [], [], [], 0⟩ 7
        ⟨"Secret bash", none, 100, none, true, some 1, []⟩ (fun _ => 0) 50).1.attendees.countP
        (fun a => a.partyId == (0 : Nat) && a.role == AttendeeRole.host) = 1 ∧
    (createParty ⟨[], [], [], [], [], 0⟩ 7
        ⟨"Secret bash", none, 100, none, true, some 1, []⟩ (fun _ => 0) 50).1.chatRooms
      = [] ++ [⟨0⟩] ∧
    ∀ txn ∈ createPartyTxns ⟨[], [], [], [], [], 0⟩ 7
        ⟨"Secret bash", none, 100, none, true, some 1, []⟩ (fun _ => 0) 50,
      ¬ (txn.any opIsInsertParty = true ∧ txn.any opIsInsertAttendee = true) :=
  claim_C2_create_private ⟨[], [], [], [], [], 0⟩ 7
    ⟨"Secret bash", none, 100, none, true, some 1, []⟩ (fun _ => 0) 50
    ⟨by decide, by decide, by decide, by decide⟩ (by decide)

/-- Every row a `listParties` page contains passed the where-clause. -/
theorem listParties_mem_matches (db : DB) (f : ListPartiesInput) (now : Nat)
    (p : PartyRow)
    (hp : p ∈ ((List.insertionSort (fun a b => a.startsAt ≤ b.startsAt)
        (db.parties.filter (matchesWhere f now))).drop
          ((f.page - 1) * f.limit)).take f.limit) :
    matchesWhere f now p = true := by
  have h1 := List.mem_of_mem_take hp
  have h2 := List.mem_of_mem_drop h1
  have h3 := (List.perm_insertionSort
    (fun a b : PartyRow => a.startsAt ≤ b.startsAt)
    (db.parties.filter (matchesWhere f now))).mem_iff.mp h2
  exact (List.mem_filter.mp h3).2

/-- Claim C9: for every filter combination, `listParties` returns only
public parties (private ones are excluded even when the `hostId` filter
names their own host), in `startsAt`-ascending order; and with
`upcoming: true` every returned party has status PLANNED or LIVE, so an
ENDED party is excluded no matter its `startsAt`. -/
theorem claim_C9_list_public_sorted (db : DB) (f : ListPartiesInput) (now : Nat) :
    (∀ resp ∈ (listParties db f now).1, resp.isPrivate = false) ∧
    List.Pairwise (fun a b : PartyResponse => a.startsAt ≤ b.startsAt)
      (listParties db f now).1 ∧
    (f.upcoming = some true →
      ∀ resp ∈ (listParties db f now).1,
        resp.status = .PLANNED ∨ resp.status = .LIVE) := by
  refine ⟨?_, ?_, ?_⟩
  · intro resp hresp
    simp only [listParties, List.mem_map] at hresp
    obtain ⟨p, hp, rfl⟩ := hresp
    have hm := listParties_mem_matches db f now p hp
    simp only [matchesWhere, Bool.and_eq_true, beq_iff_eq] at hm
    exact hm.2
  · have hsorted : List.Pairwise (fun a b : PartyRow => a.startsAt ≤ b.startsAt)
        (List.insertionSort (fun a b => a.startsAt ≤ b.startsAt)
          (db.parties.filter (matchesWhere f now))) :=
      List.sorted_insertionSort _ _
    have hsub := hsorted.sublist
      ((List.take_sublist f.limit
          ((List.insertionSort (fun a b => a.startsAt ≤ b.startsAt)
            (db.parties.filter (matchesWhere f now))).drop
              ((f.page - 1) * f.limit))).trans
        (List.drop_sublist ((f.page - 1) * f.limit) _))
    exact List.Pairwise.map _ (fun a b h => h) hsub
  · intro hup resp hresp
    simp only [listParties, List.mem_map] at hresp
    obtain ⟨p, hp, rfl⟩ := hresp
    have hm := listParties_mem_matches db f now p hp
    simp only [matchesWhere, Bool.and_eq_true] at hm
    have hstat := hm.1.1.1.1
    have hact : upcomingActive f = true := by
      unfold upcomingActive
      rw [hup]
      rfl
    unfold statusFilterOk at hstat
    rw [hact, if_pos rfl] at hstat
    have : p.status = .PLANNED ∨ p.status = .LIVE := by
      rcases Bool.or_eq_true_iff.mp hstat with h | h
      · exact Or.inl (by simpa using h)
      · exact Or.inr (by simpa using h)
    exact this

/-- Concrete instantiation of claim C9: four parties — two public
upcoming ones out of `startsAt` order, an ENDED one with a future
`startsAt`, and a private one whose own host is the `hostId` filter —
listed with `upcoming: true`. -/
theorem claim_C9_witness :
    (∀ resp ∈ (listParties ⟨[⟨0, 7, "Gala", none, 300, none, .PLANNED, false, none, none, 1⟩,
        ⟨1, 7, "Rave", none, 200, none, .LIVE, false, none, none, 1⟩,
        ⟨2, 7, "Old", none, 400, none, .ENDED, false, none, none, 1⟩,
        ⟨3, 7, "Priv", none, 250, none, .PLANNED, true, some "ABCDEF", none, 1⟩],
        [], [], [], [], 4⟩ ⟨1, 20, none, some 7, none, some true⟩ 100).1,
      resp.isPrivate = false) ∧
    List.Pairwise (fun a b : PartyResponse => a.startsAt ≤ b.startsAt)
      (listParties ⟨[⟨0, 7, "Gala", none, 300, none, .PLANNED, false, none, none, 1⟩,
        ⟨1, 7, "Rave", none, 200, none, .LIVE, false, none, none, 1⟩,
        ⟨2, 7, "Old", none, 400, none, .ENDED, false, none, none, 1⟩,
        ⟨3, 7, "Priv", none, 250, none, .PLANNED, true, some "ABCDEF", none, 1⟩],
        [], [], [], [], 4⟩ ⟨1, 20, none, some 7, none, some true⟩ 100).1 ∧
    (∀ resp ∈ (listParties ⟨[⟨0, 7, "Gala", none, 300, none, .PLANNED, false, none, none, 1⟩,
        ⟨1, 7, "Rave", none, 200, none, .LIVE, false, none, none, 1⟩,
        ⟨2, 7, "Old", none, 400, none, .ENDED, false, none, none, 1⟩,
        ⟨3, 7, "Priv", none, 250, none, .PLANNED, true, some "ABCDEF", none, 1⟩],
        [], [], [], [], 4⟩ ⟨1, 20, none, some 7, none, some true⟩ 100).1,
      resp.status = .PLANNED ∨ resp.status = .LIVE) := by
  have h := claim_C9_list_public_sorted
    ⟨[⟨0, 7, "Gala", none, 300, none, .PLANNED, false, none, none, 1⟩,
      ⟨1, 7, "Rave", none, 200, none, .LIVE, false, none, none, 1⟩,
      ⟨2, 7, "Old", none, 400, none, .ENDED, false, none, none, 1⟩,
      ⟨3, 7, "Priv", none, 250, none, .PLANNED, true, some "ABCDEF", none, 1⟩],
      [], [], [], [], 4⟩ ⟨1, 20, none, some 7, none, some true⟩ 100
  exact ⟨h.1, h.2.1, h.2.2 (by decide)⟩

end PartyGallery
